import Mathlib

set_option autoImplicit false
set_option maxHeartbeats 1000000

/-!
Verification of the CombineXL combination engine (src/excel_combiner.py).

This file shallowly embeds the engine's worker and its helpers:

* `copy_cell_v1` / `copy_cell_v2`  — the two cell-copy strategies (lines 209-274);
* `copy_row` (shared body of `copy_row_v1`/`copy_row_v2`, which are textually
  identical and both call the module-global `copy_cell`, lines 233-243, 276-286);
* `copy_merged_cells`              — merged-range remapping (lines 291-313);
* `combine_excel_files_worker`     — the engine loop (lines 316-391).

Modelling notes, all derived from the source and openpyxl semantics:

* A loaded cell carries a resolved value, a style key (`cell._style`, the
  per-workbook array of style indices used by `copy_cell_v2` as its cache key)
  and the resolved style attributes (font, border, fill, number format,
  protection, alignment) that `cell.font` etc. return.  Two cells of one
  workbook with equal `_style` resolve to equal attributes, but the key is an
  index array into that workbook's style tables, so equal keys from different
  workbooks may resolve to different attributes.
* `openpyxl.load_workbook(path, data_only=d)` resolves a formula cell's value
  to its cached computed value when `d` is true and to the formula text when
  `d` is false (`loadValue`).  Loading may raise (unreadable/corrupt file):
  an input file is an `Except String Doc`.
* Reading `ws.cell(row, column)` beyond `max_row` creates a blank cell and
  does not raise; concrete documents model this by returning `blankFileCell`
  outside their grid.
* `ws.merge_cells` with well-formed bounds (which every call here passes) does
  not raise, so the `except` arm of `copy_merged_cells` (the only warning
  `print`) never fires; the warning channel is the second component of the
  result and stays empty.
* `combined_wb.save(output_file)` may raise (permissions, disk); `saveOk`
  carries `some e` when it would raise with message `e`.
* The cancellation event is set at most once and never cleared
  (`threading.Event` used via a single `set()`), so the reads of
  `cancel_event.is_set()` at the document boundaries are `cancelSet cancelAt i`
  for `cancelAt : Option Nat` the first boundary at which the flag reads set.
* The queue messages are collected in order in a list; the `cancelled` result
  `put` inside the loop is emitted by the driver right after the loop returns,
  which preserves the emitted sequence exactly.
-/

/-- A spreadsheet cell value as openpyxl exposes it: empty (`None`), text,
number, boolean, or formula text (what `cell.value` holds for a formula cell
in a workbook loaded with `data_only=False`). -/
inductive XVal where
  | vnone : XVal
  | vstr (s : String) : XVal
  | vint (n : Int) : XVal
  | vbool (b : Bool) : XVal
  | vformula (t : String) : XVal
deriving DecidableEq

/-- The resolved styling attributes of a cell: exactly the six attributes the
copy strategies transfer (`font`, `border`, `fill`, `number_format`,
`protection`, `alignment`, lines 222-227 and 264-269).  Attribute contents are
opaque, so all but the number format are identifiers. -/
structure CellStyle where
  font : Nat
  border : Nat
  fill : Nat
  numFmt : String
  protection : Nat
  alignment : Nat
deriving DecidableEq

def defaultCellStyle : CellStyle :=
  { font := 0, border := 0, fill := 0, numFmt := "General", protection := 0, alignment := 0 }

/-- A source cell as `copy_cell_v1`/`copy_cell_v2` see it after loading:
resolved value, `has_style`, the `_style` cache key, the resolved attributes,
and optional hyperlink and comment. -/
structure LCell where
  value : XVal
  hasStyle : Bool
  styleKey : Nat
  style : CellStyle
  hyperlink : Option String
  comment : Option String
deriving DecidableEq

/-- A cell of the output workbook.  A freshly created target cell has the
default style and no value, hyperlink or comment. -/
structure TCell where
  value : XVal
  style : CellStyle
  hyperlink : Option String
  comment : Option String
deriving DecidableEq

def freshTCell : TCell :=
  { value := XVal.vnone, style := defaultCellStyle, hyperlink := none, comment := none }

/-- Association-list lookup, first match wins (Python `dict` lookup for the
model's maps). -/
def assoc {α β : Type} [DecidableEq α] : List (α × β) → α → Option β
  | [], _ => none
  | p :: rest, k => if p.1 = k then some p.2 else assoc rest k

/-- The module-global `style_cache` of the source: a dict from the source
cell's `_style` key to the target-side `_style` produced for it. -/
abbrev StyleCache := List (Nat × CellStyle)

/-- Function copy_cell_v1 (lines 209-231): copies the value, then — when the source
cell has a style — each of the six style attributes individually, then the
hyperlink and the comment when present. -/
def copy_cell_v1 (src : LCell) (tgt : TCell) : TCell :=
  let t := { tgt with value := src.value }
  let t := if src.hasStyle then
      { t with style :=
          { font := src.style.font, border := src.style.border, fill := src.style.fill,
            numFmt := src.style.numFmt, protection := src.style.protection,
            alignment := src.style.alignment } }
    else t
  let t := if src.hyperlink.isSome then { t with hyperlink := src.hyperlink } else t
  let t := if src.comment.isSome then { t with comment := src.comment } else t
  t

/-- Function copy_cell_v2 (lines 247-274): copies the value; when the source cell has
a style, looks its `_style` key up in `style_cache` and either assigns the
cached target style wholesale or performs the six attribute copies and stores
the resulting target style under the key; then hyperlink and comment. -/
def copy_cell_v2 (cache : StyleCache) (src : LCell) (tgt : TCell) : TCell × StyleCache :=
  let t := { tgt with value := src.value }
  let r :=
    if src.hasStyle then
      match assoc cache src.styleKey with
      | some s => ({ t with style := s }, cache)
      | none =>
        let t := { t with style :=
            { font := src.style.font, border := src.style.border, fill := src.style.fill,
              numFmt := src.style.numFmt, protection := src.style.protection,
              alignment := src.style.alignment } }
        (t, (src.styleKey, t.style) :: cache)
    else (t, cache)
  let t := r.1
  let t := if src.hyperlink.isSome then { t with hyperlink := src.hyperlink } else t
  let t := if src.comment.isSome then { t with comment := src.comment } else t
  (t, r.2)

/-- The run's copy strategy: the global `copy_cell` is bound to `copy_cell_v2`
when the user picks the optimized method (`useV2 = true`, lines 438-446) and to
`copy_cell_v1` otherwise; `copy_cell_v1` never touches the cache. -/
def copyCellStrat (useV2 : Bool) (cache : StyleCache) (src : LCell) (tgt : TCell) :
    TCell × StyleCache :=
  if useV2 then copy_cell_v2 cache src tgt else (copy_cell_v1 src tgt, cache)

/-- A cell as stored in a source file: optional formula text, the last
computed (cached) value, and the style/hyperlink/comment data. -/
structure FileCell where
  formula : Option String
  cached : XVal
  hasStyle : Bool
  styleKey : Nat
  style : CellStyle
  hyperlink : Option String
  comment : Option String

def blankFileCell : FileCell :=
  { formula := none, cached := XVal.vnone, hasStyle := false, styleKey := 0,
    style := defaultCellStyle, hyperlink := none, comment := none }

/-- The value that `cell.value` exposes after loading with data_only=dataOnly:
the cached computed value under `data_only=True`, the formula text otherwise. -/
def loadValue (dataOnly : Bool) (c : FileCell) : XVal :=
  if dataOnly then c.cached
  else
    match c.formula with
    | some t => XVal.vformula t
    | none => c.cached

/-- The loaded view of a stored cell. -/
def loadCell (dataOnly : Bool) (c : FileCell) : LCell :=
  { value := loadValue dataOnly c, hasStyle := c.hasStyle, styleKey := c.styleKey,
    style := c.style, hyperlink := c.hyperlink, comment := c.comment }

/-- A merged range `(min_row, max_row, min_col, max_col)` in a sheet's own
coordinates. -/
structure MergedRange where
  minRow : Nat
  maxRow : Nat
  minCol : Nat
  maxCol : Nat
deriving DecidableEq

/-- A parsed source worksheet (the active sheet of a loaded workbook):
`max_row`/`max_column`, the cell grid, `row_dimensions` entries that carry a
height, the merged ranges, and the `column_dimensions` entries (index, width;
a `0` width is falsy and is skipped, `if dim.width:` line 371). -/
structure Doc where
  maxRow : Nat
  maxCol : Nat
  cells : Nat → Nat → FileCell
  rowHeights : List (Nat × Nat)
  merges : List MergedRange
  colWidths : List (Nat × Nat)

/-- A source file handed to the worker: its base name and the result of
loading it (`Except.error e` when `openpyxl.load_workbook` raises `e`). -/
structure InputFile where
  name : String
  parse : Except String Doc

def parseOk (f : InputFile) : Bool :=
  match f.parse with
  | Except.ok _ => true
  | Except.error _ => false

/-- The growing output worksheet: written cells (latest entry first, as a
dict), registered merged ranges, row heights and column widths. -/
structure WOutput where
  cells : List ((Nat × Nat) × TCell)
  merges : List MergedRange
  rowHeights : List (Nat × Nat)
  colWidths : List (Nat × Nat)
deriving DecidableEq

def emptyOut : WOutput :=
  { cells := [], merges := [], rowHeights := [], colWidths := [] }

/-- Reading `tgt_sheet.cell(row, column)`: the current cell at a position, a fresh
blank cell when it has not been written. -/
def getCell (o : WOutput) (p : Nat × Nat) : TCell :=
  (assoc o.cells p).getD freshTCell

def setCell (o : WOutput) (p : Nat × Nat) (t : TCell) : WOutput :=
  { o with cells := (p, t) :: o.cells }

/-- The column offset: `col_offset = 1 if include_filename else 0`. -/
def colOff (includeFilename : Bool) : Nat :=
  if includeFilename then 1 else 0

/-- The remapped range registered for an in-window merge (lines 306-309). -/
def remapRange (srcStartRow tgtStartRow off : Nat) (r : MergedRange) : MergedRange :=
  { minRow := r.minRow - srcStartRow + tgtStartRow,
    maxRow := r.maxRow - srcStartRow + tgtStartRow,
    minCol := r.minCol + off,
    maxCol := r.maxCol + off }

/-- Function copy_merged_cells (lines 291-313): every source merged range whose rows
lie entirely inside `[srcStartRow, srcEndRow]` is remapped and registered; all
other ranges are skipped.  The second component collects the warnings printed
by the `except` arm of `merge_cells`; registration of a well-formed range does
not raise, so no warning is produced. -/
def copy_merged_cells (merges : List MergedRange) (srcStartRow srcEndRow tgtStartRow : Nat)
    (includeFilename : Bool) : List MergedRange × List String :=
  match merges with
  | [] => ([], [])
  | r :: rest =>
    let tail := copy_merged_cells rest srcStartRow srcEndRow tgtStartRow includeFilename
    if srcStartRow ≤ r.minRow ∧ r.maxRow ≤ srcEndRow then
      (remapRange srcStartRow tgtStartRow (colOff includeFilename) r :: tail.1, tail.2)
    else tail

/-- The worker's mutable engine state: the output sheet, `tgt_row_idx`, and the
global `style_cache`. -/
structure EngineState where
  out : WOutput
  tgt : Nat
  cache : StyleCache
deriving DecidableEq

/-- The cell loop of `copy_row_v1`/`copy_row_v2` (lines 240-243, 283-286) over
a list of source column indices. -/
def copyRowCells (useV2 dataOnly : Bool) (ws : Doc) (srcRow tgtRow off : Nat) :
    List Nat → WOutput → StyleCache → WOutput × StyleCache
  | [], out, cache => (out, cache)
  | c :: rest, out, cache =>
    let srcCell := loadCell dataOnly (ws.cells srcRow c)
    let tgtCell := getCell out (tgtRow, c + off)
    let r := copyCellStrat useV2 cache srcCell tgtCell
    copyRowCells useV2 dataOnly ws srcRow tgtRow off rest (setCell out (tgtRow, c + off) r.1) r.2

/-- The shared body of `copy_row_v1`/`copy_row_v2` (lines 233-243 and 276-286,
textually identical): copy the row height when the source row has one, write
the filename into column 1 when enabled, then copy columns `1..max_column`
shifted by the offset. -/
def copy_row (useV2 dataOnly : Bool) (ws : Doc) (includeFilename : Bool) (filename : String)
    (srcRow tgtRow : Nat) (out : WOutput) (cache : StyleCache) : WOutput × StyleCache :=
  let out := match assoc ws.rowHeights srcRow with
    | some hgt => { out with rowHeights := out.rowHeights ++ [(tgtRow, hgt)] }
    | none => out
  let off := colOff includeFilename
  let out := if includeFilename then
      setCell out (tgtRow, 1) { getCell out (tgtRow, 1) with value := XVal.vstr filename }
    else out
  copyRowCells useV2 dataOnly ws srcRow tgtRow off (List.range' 1 ws.maxCol) out cache

/-- A `for src_row in range(a, b): copy_row(...); tgt_row_idx += 1` loop over
the listed source rows. -/
def copyRows (useV2 dataOnly includeFilename : Bool) (ws : Doc) (filename : String) :
    List Nat → EngineState → EngineState
  | [], st => st
  | r :: rest, st =>
    let res := copy_row useV2 dataOnly ws includeFilename filename r st.tgt st.out st.cache
    copyRows useV2 dataOnly includeFilename ws filename rest
      { out := res.1, tgt := st.tgt + 1, cache := res.2 }

def registerMerges (o : WOutput) (new : List MergedRange) : WOutput :=
  { o with merges := o.merges ++ new }

/-- The first document's column-width copy (lines 368-372): each
`column_dimensions` entry with a truthy width is written at the offset column. -/
def copyColWidths (off : Nat) (src : List (Nat × Nat)) (o : WOutput) : WOutput :=
  { o with colWidths := o.colWidths ++
      src.filterMap (fun p => if p.2 ≠ 0 then some (p.1 + off, p.2) else none) }

/-- The per-document body of the worker loop (lines 356-381): for the first
document copy the header rows `1..heading_rows`, remap their merges, copy the
data rows `heading_rows+1..max_row`, remap their merges, and copy the column
widths; for every later document start at `delete_rows + 1`, skip the document
entirely when that exceeds `max_row`, otherwise copy the block and remap its
merges relative to the output row at which the block began. -/
def processDoc (useV2 dataOnly includeFilename : Bool) (headingRows deleteRows : Nat)
    (i : Nat) (ws : Doc) (filename : String) (st : EngineState) : EngineState :=
  if i = 0 then
    let st := copyRows useV2 dataOnly includeFilename ws filename
      (List.range' 1 headingRows) st
    let st := { st with out := (registerMerges st.out
        (copy_merged_cells ws.merges 1 headingRows 1 includeFilename).1) }
    let dataStart := headingRows + 1
    let st := copyRows useV2 dataOnly includeFilename ws filename
      (List.range' dataStart (ws.maxRow + 1 - dataStart)) st
    let st := { st with out := (registerMerges st.out
        (copy_merged_cells ws.merges dataStart ws.maxRow (headingRows + 1) includeFilename).1) }
    { st with out := copyColWidths (colOff includeFilename) ws.colWidths st.out }
  else
    let startRow := deleteRows + 1
    if ws.maxRow < startRow then st
    else
      let blockStart := st.tgt
      let st := copyRows useV2 dataOnly includeFilename ws filename
        (List.range' startRow (ws.maxRow + 1 - startRow)) st
      { st with out := (registerMerges st.out
          (copy_merged_cells ws.merges startRow ws.maxRow blockStart includeFilename).1) }

/-- A message put on `progress_queue`: a progress update or a terminal result. -/
inductive Msg where
  | progress (step : Nat) (status : String) : Msg
  | result (status message : String) : Msg
deriving DecidableEq

def isResultMsg : Msg → Bool
  | Msg.result _ _ => true
  | Msg.progress _ _ => false

def progressStep? : Msg → Option Nat
  | Msg.progress s _ => some s
  | Msg.result _ _ => none

def progressSteps (l : List Msg) : List Nat :=
  l.filterMap progressStep?

/-- Whether `cancel_event.is_set()` reads true at the boundary before document
`i`: the flag is set once and stays set from boundary `cancelAt` on. -/
def cancelSet (cancelAt : Option Nat) (i : Nat) : Bool :=
  match cancelAt with
  | some k => decide (k ≤ i)
  | none => false

def progressText (i total : Nat) (nm : String) : String :=
  "Processing file " ++ toString (i + 1) ++ "/" ++ toString total ++ ": " ++ nm

/-- Outcome of the `for i, file_path in enumerate(files)` loop: ran to
completion, returned at a cancellation check, or raised with message `e`. -/
inductive LoopOut where
  | done (st : EngineState) (msgs : List Msg) : LoopOut
  | cancelled (st : EngineState) (msgs : List Msg) : LoopOut
  | exc (st : EngineState) (msgs : List Msg) (e : String) : LoopOut
deriving DecidableEq

def loopMsgs : LoopOut → List Msg
  | LoopOut.done _ m => m
  | LoopOut.cancelled _ m => m
  | LoopOut.exc _ m _ => m

def loopState : LoopOut → EngineState
  | LoopOut.done st _ => st
  | LoopOut.cancelled st _ => st
  | LoopOut.exc st _ _ => st

/-- The document loop of `combine_excel_files_worker` (lines 343-381): at each
boundary check the cancellation flag, emit the progress message, load the file
(raising ends the loop exceptionally), and process the document. -/
def workerLoop (useV2 dataOnly includeFilename : Bool) (headingRows deleteRows : Nat)
    (cancelAt : Option Nat) (total : Nat) :
    List InputFile → Nat → EngineState → List Msg → LoopOut
  | [], _, st, msgs => LoopOut.done st msgs
  | f :: rest, i, st, msgs =>
    if cancelSet cancelAt i then LoopOut.cancelled st msgs
    else
      let msgs := msgs ++ [Msg.progress i (progressText i total f.name)]
      match f.parse with
      | Except.error e => LoopOut.exc st msgs e
      | Except.ok ws =>
        workerLoop useV2 dataOnly includeFilename headingRows deleteRows cancelAt total
          rest (i + 1)
          (processDoc useV2 dataOnly includeFilename headingRows deleteRows i ws f.name st)
          msgs

/-- The observable outcome of one worker run: the message sequence put on the
queue, the in-memory output sheet, whether the output file was written, and
whether `combined_wb.save` was reached at all. -/
structure WRun where
  msgs : List Msg
  out : WOutput
  saved : Bool
  saveInvoked : Bool
deriving DecidableEq

def initState : EngineState :=
  { out := emptyOut, tgt := 1, cache := [] }

def cancelledMsg : Msg :=
  Msg.result "cancelled" "Operation cancelled by user."

def errorMsg (e : String) : Msg :=
  Msg.result "error" ("An error occurred: " ++ e)

def successMsg (n : Nat) : Msg :=
  Msg.result "success" ("Successfully combined " ++ toString n ++ " files.")

def savingMsg (n : Nat) : Msg :=
  Msg.progress n "Saving combined file..."

/-- Function combine_excel_files_worker (lines 316-391): run the document loop from a
fresh output workbook, `tgt_row_idx = 1` and a cleared `style_cache`; on
completion emit the saving progress message, save, and report success; convert
a cancellation check into the cancelled result and any exception (load or
save) into the error result. -/
def combine_excel_files_worker (useV2 : Bool) (files : List InputFile)
    (saveOk : Option String) (headingRows deleteRows : Nat)
    (includeFilename preserveFormulas : Bool) (cancelAt : Option Nat) : WRun :=
  let dataOnly := !preserveFormulas
  match workerLoop useV2 dataOnly includeFilename headingRows deleteRows cancelAt
      files.length files 0 initState [] with
  | LoopOut.cancelled st msgs =>
    { msgs := msgs ++ [cancelledMsg], out := st.out, saved := false, saveInvoked := false }
  | LoopOut.exc st msgs e =>
    { msgs := msgs ++ [errorMsg e], out := st.out, saved := false, saveInvoked := false }
  | LoopOut.done st msgs =>
    let msgs := msgs ++ [savingMsg files.length]
    match saveOk with
    | some e =>
      { msgs := msgs ++ [errorMsg e], out := st.out, saved := false, saveInvoked := true }
    | none =>
      { msgs := msgs ++ [successMsg files.length], out := st.out, saved := true,
        saveInvoked := true }

/-! ### Concrete documents used by witnesses and counterexamples -/

/-- A 1 x 1 document whose only cell is blank. -/
def wsTiny : Doc :=
  { maxRow := 1, maxCol := 1, cells := fun _ _ => blankFileCell,
    rowHeights := [], merges := [], colWidths := [] }

def fTiny : InputFile := { name := "a.xlsx", parse := Except.ok wsTiny }

/-- A file whose load raises. -/
def fBad : InputFile := { name := "bad.xlsx", parse := Except.error "corrupt archive" }

def styleRed : CellStyle :=
  { font := 1, border := 0, fill := 0, numFmt := "General", protection := 0, alignment := 0 }

def styleBlue : CellStyle :=
  { font := 2, border := 0, fill := 0, numFmt := "General", protection := 0, alignment := 0 }

/-- A styled cell whose workbook resolves style-array key 1 to `styleRed`. -/
def cellRed : FileCell :=
  { formula := none, cached := XVal.vint 1, hasStyle := true, styleKey := 1,
    style := styleRed, hyperlink := none, comment := none }

/-- A styled cell of a different workbook that resolves the same style-array
key 1 to `styleBlue`. -/
def cellBlue : FileCell :=
  { formula := none, cached := XVal.vint 2, hasStyle := true, styleKey := 1,
    style := styleBlue, hyperlink := none, comment := none }

def wsRed : Doc :=
  { maxRow := 1, maxCol := 1, cells := fun _ _ => cellRed,
    rowHeights := [], merges := [], colWidths := [] }

def wsBlue : Doc :=
  { maxRow := 1, maxCol := 1, cells := fun _ _ => cellBlue,
    rowHeights := [], merges := [], colWidths := [] }

def fRed : InputFile := { name := "red.xlsx", parse := Except.ok wsRed }

def fBlue : InputFile := { name := "blue.xlsx", parse := Except.ok wsBlue }

/-- A stored formula cell. -/
def fcFormula : FileCell :=
  { formula := some "=A1+B1", cached := XVal.vint 3, hasStyle := false, styleKey := 0,
    style := defaultCellStyle, hyperlink := none, comment := none }

/-- Whether cancellation was never requested before boundary n. -/
def noCancelBefore (cAt : Option Nat) (n : Nat) : Bool :=
  match cAt with
  | none => true
  | some k => decide (n ≤ k)

/-- Whether a value is formula syntax. -/
def isFormulaVal : XVal → Bool
  | XVal.vformula _ => true
  | _ => false

/-- No entry ever written to the output sheet holds formula syntax. -/
def cellsNoFormula (o : WOutput) : Prop :=
  ∀ pr ∈ o.cells, isFormulaVal pr.2.value = false

/-- The invariant of the data model (spec section 3): a formula cell's cached
computed value is itself never formula syntax. -/
def docCachedOk (ws : Doc) : Prop :=
  ∀ r c, isFormulaVal ((ws.cells r c).cached) = false

theorem copy_merged_cells_eq (srcStartRow srcEndRow tgtStartRow : Nat) (incl : Bool) :
    ∀ merges : List MergedRange,
      copy_merged_cells merges srcStartRow srcEndRow tgtStartRow incl =
        (merges.filterMap (fun r =>
          if srcStartRow ≤ r.minRow ∧ r.maxRow ≤ srcEndRow then
            some (remapRange srcStartRow tgtStartRow (colOff incl) r)
          else none), []) := by
  intro merges
  induction merges with
  | nil => rfl
  | cons r rest ih =>
    by_cases h : srcStartRow ≤ r.minRow ∧ r.maxRow ≤ srcEndRow
    · simp [copy_merged_cells, h, ih]
    · simp [copy_merged_cells, h, ih]

theorem copyRows_tgt (u dO iF : Bool) (ws : Doc) (nm : String) :
    ∀ (rows : List Nat) (st : EngineState),
      (copyRows u dO iF ws nm rows st).tgt = st.tgt + rows.length := by
  intro rows
  induction rows with
  | nil => intro st; simp [copyRows]
  | cons r rest ih =>
    intro st
    simp [copyRows, ih]
    omega

theorem copyRowCells_colWidths (u dO : Bool) (ws : Doc) (sr tr off : Nat) :
    ∀ (cols : List Nat) (out : WOutput) (cache : StyleCache),
      (copyRowCells u dO ws sr tr off cols out cache).1.colWidths = out.colWidths := by
  intro cols
  induction cols with
  | nil => intro out cache; rfl
  | cons c rest ih => intro out cache; simp [copyRowCells, ih, setCell]

theorem copy_row_colWidths (u dO : Bool) (ws : Doc) (iF : Bool) (nm : String)
    (sr tr : Nat) (out : WOutput) (cache : StyleCache) :
    (copy_row u dO ws iF nm sr tr out cache).1.colWidths = out.colWidths := by
  unfold copy_row
  cases assoc ws.rowHeights sr <;> cases iF <;>
    simp [copyRowCells_colWidths, setCell]

theorem copyRows_colWidths (u dO iF : Bool) (ws : Doc) (nm : String) :
    ∀ (rows : List Nat) (st : EngineState),
      (copyRows u dO iF ws nm rows st).out.colWidths = st.out.colWidths := by
  intro rows
  induction rows with
  | nil => intro st; rfl
  | cons r rest ih => intro st; simp [copyRows, ih, copy_row_colWidths]

theorem copyRowCells_merges (u dO : Bool) (ws : Doc) (sr tr off : Nat) :
    ∀ (cols : List Nat) (out : WOutput) (cache : StyleCache),
      (copyRowCells u dO ws sr tr off cols out cache).1.merges = out.merges := by
  intro cols
  induction cols with
  | nil => intro out cache; rfl
  | cons c rest ih => intro out cache; simp [copyRowCells, ih, setCell]

theorem copy_row_merges (u dO : Bool) (ws : Doc) (iF : Bool) (nm : String)
    (sr tr : Nat) (out : WOutput) (cache : StyleCache) :
    (copy_row u dO ws iF nm sr tr out cache).1.merges = out.merges := by
  unfold copy_row
  cases assoc ws.rowHeights sr <;> cases iF <;>
    simp [copyRowCells_merges, setCell]

theorem copyRows_merges (u dO iF : Bool) (ws : Doc) (nm : String) :
    ∀ (rows : List Nat) (st : EngineState),
      (copyRows u dO iF ws nm rows st).out.merges = st.out.merges := by
  intro rows
  induction rows with
  | nil => intro st; rfl
  | cons r rest ih => intro st; simp [copyRows, ih, copy_row_merges]

theorem registerMerges_colWidths (o : WOutput) (new : List MergedRange) :
    (registerMerges o new).colWidths = o.colWidths := rfl

theorem processDoc_first_colWidths (u dO iF : Bool) (h d : Nat) (ws : Doc) (nm : String)
    (st : EngineState) :
    (processDoc u dO iF h d 0 ws nm st).out.colWidths =
      st.out.colWidths ++ ws.colWidths.filterMap
        (fun p => if p.2 ≠ 0 then some (p.1 + colOff iF, p.2) else none) := by
  simp only [processDoc, if_pos rfl]
  simp [copyColWidths, registerMerges, copyRows_colWidths]

theorem processDoc_later_colWidths (u dO iF : Bool) (h d i : Nat) (ws : Doc) (nm : String)
    (st : EngineState) (hi : 0 < i) :
    (processDoc u dO iF h d i ws nm st).out.colWidths = st.out.colWidths := by
  have hi0 : ¬ i = 0 := by omega
  simp only [processDoc, if_neg hi0]
  split
  · rfl
  · simp [registerMerges, copyRows_colWidths]

theorem processDoc_skip (u dO iF : Bool) (h d i : Nat) (ws : Doc) (nm : String)
    (st : EngineState) (hi : 0 < i) (hle : ws.maxRow ≤ d) :
    processDoc u dO iF h d i ws nm st = st := by
  have hi0 : ¬ i = 0 := by omega
  have hms : ws.maxRow < d + 1 := by omega
  simp only [processDoc, if_neg hi0, if_pos hms]

theorem processDoc_block (u dO iF : Bool) (h d i : Nat) (ws : Doc) (nm : String)
    (st : EngineState) (hi : 0 < i) (hlt : d < ws.maxRow) :
    processDoc u dO iF h d i ws nm st =
      { copyRows u dO iF ws nm (List.range' (d + 1) (ws.maxRow - d)) st with
          out := registerMerges
            (copyRows u dO iF ws nm (List.range' (d + 1) (ws.maxRow - d)) st).out
            (copy_merged_cells ws.merges (d + 1) ws.maxRow st.tgt iF).1 } := by
  have hi0 : ¬ i = 0 := by omega
  have hms : ¬ ws.maxRow < d + 1 := by omega
  have hcnt : ws.maxRow + 1 - (d + 1) = ws.maxRow - d := by omega
  simp only [processDoc, if_neg hi0, if_neg hms, hcnt]

theorem workerLoop_step (u dO iF : Bool) (h d : Nat) (cAt : Option Nat) (total : Nat)
    (f : InputFile) (rest : List InputFile) (i : Nat) (st : EngineState) (msgs : List Msg)
    (ws : Doc) (hc : cancelSet cAt i = false) (hp : f.parse = Except.ok ws) :
    workerLoop u dO iF h d cAt total (f :: rest) i st msgs =
      workerLoop u dO iF h d cAt total rest (i + 1)
        (processDoc u dO iF h d i ws f.name st)
        (msgs ++ [Msg.progress i (progressText i total f.name)]) := by
  simp [workerLoop, hc, hp]

/-- Claim C2 (amended): a merged range lying entirely inside the copy window is
registered translated by exactly the window's row delta with both column bounds
shifted by the filename-column offset; every other range (partial overlap
included) is dropped, no partially remapped range is ever registered, and the
drop is silent: no warning is produced. -/
theorem C2_merged_range_remap (ms : List MergedRange) (a b t : Nat) (incl : Bool) :
    (copy_merged_cells ms a b t incl).2 = [] ∧
    (copy_merged_cells ms a b t incl).1 =
      ms.filterMap (fun r =>
        if a ≤ r.minRow ∧ r.maxRow ≤ b then some (remapRange a t (colOff incl) r)
        else none) ∧
    ∀ r : MergedRange, r.minRow ≤ r.maxRow → a ≤ r.minRow → r.maxRow ≤ b →
      ((remapRange a t (colOff incl) r).minRow : Int) =
        (r.minRow : Int) + ((t : Int) - (a : Int)) ∧
      ((remapRange a t (colOff incl) r).maxRow : Int) =
        (r.maxRow : Int) + ((t : Int) - (a : Int)) ∧
      (remapRange a t (colOff incl) r).minCol = r.minCol + colOff incl ∧
      (remapRange a t (colOff incl) r).maxCol = r.maxCol + colOff incl := by
  refine ⟨?_, ?_, ?_⟩
  · rw [copy_merged_cells_eq]
  · rw [copy_merged_cells_eq]
  · intro r hwf h1 h2
    refine ⟨?_, ?_, rfl, rfl⟩ <;> simp [remapRange] <;> omega

theorem C2_merged_range_remap_witness :
    (copy_merged_cells [⟨2, 3, 1, 2⟩] 2 5 7 true).2 = [] ∧
    ((remapRange 2 7 (colOff true) ⟨2, 3, 1, 2⟩).minRow : Int) =
      (2 : Int) + ((7 : Int) - (2 : Int)) :=
  ⟨(C2_merged_range_remap [⟨2, 3, 1, 2⟩] 2 5 7 true).1,
   ((C2_merged_range_remap [⟨2, 3, 1, 2⟩] 2 5 7 true).2.2 ⟨2, 3, 1, 2⟩
      (by decide) (by decide) (by decide)).1⟩

/-- Claim C2, counterexample to the claim as stated: the range rows 1-3 only
partially overlaps the copy window rows 2-5, it is dropped (first component
empty), but no recoverable warning is produced (second component empty),
whereas the claim asserts one is. -/
theorem C2_counterexample : copy_merged_cells [⟨1, 3, 1, 1⟩] 2 5 7 false = ([], []) := by
  decide

/-- Claim C3: for every document after the first, a copy window starting past
the last row skips the document entirely (the state is unchanged: zero rows,
zero merges) and the loop proceeds to the next document; otherwise the rows
`deleteRows+1..maxRow` are copied as one contiguous block (advancing the output
cursor by the block size) and the block's merges are remapped relative to the
output row at which the block began. -/
theorem C3_skip_or_block (u dO iF : Bool) (h d : Nat) (cAt : Option Nat) (total : Nat)
    (f : InputFile) (rest : List InputFile) (i : Nat) (st : EngineState) (msgs : List Msg)
    (ws : Doc) (hi : 0 < i) (hp : f.parse = Except.ok ws) (hc : cancelSet cAt i = false) :
    (ws.maxRow ≤ d →
      processDoc u dO iF h d i ws f.name st = st ∧
      workerLoop u dO iF h d cAt total (f :: rest) i st msgs =
        workerLoop u dO iF h d cAt total rest (i + 1) st
          (msgs ++ [Msg.progress i (progressText i total f.name)])) ∧
    (d < ws.maxRow →
      processDoc u dO iF h d i ws f.name st =
        { copyRows u dO iF ws f.name (List.range' (d + 1) (ws.maxRow - d)) st with
            out := registerMerges
              (copyRows u dO iF ws f.name (List.range' (d + 1) (ws.maxRow - d)) st).out
              (copy_merged_cells ws.merges (d + 1) ws.maxRow st.tgt iF).1 } ∧
      (copyRows u dO iF ws f.name (List.range' (d + 1) (ws.maxRow - d)) st).tgt =
        st.tgt + (ws.maxRow - d)) := by
  constructor
  · intro hle
    have hskip := processDoc_skip u dO iF h d i ws f.name st hi hle
    refine ⟨hskip, ?_⟩
    rw [workerLoop_step u dO iF h d cAt total f rest i st msgs ws hc hp, hskip]
  · intro hlt
    refine ⟨processDoc_block u dO iF h d i ws f.name st hi hlt, ?_⟩
    rw [copyRows_tgt]
    simp

theorem C3_skip_or_block_witness :
    processDoc false true false 1 5 1 wsTiny "a.xlsx" initState = initState ∧
    workerLoop false true false 1 5 none 2 [fTiny] 1 initState [] =
      workerLoop false true false 1 5 none 2 [] 2 initState
        ([] ++ [Msg.progress 1 (progressText 1 2 "a.xlsx")]) :=
  (C3_skip_or_block false true false 1 5 none 2 fTiny [] 1 initState [] wsTiny
    (by decide) rfl rfl).1 (by decide)

/-- Claim C9: column-width metadata is copied to the output only from the first
document, each column index shifted by the filename-column offset and falsy
widths skipped; processing any document after the first leaves the output's
column widths unchanged. -/
theorem C9_column_widths :
    (∀ (u dO iF : Bool) (h d i : Nat) (ws : Doc) (nm : String) (st : EngineState), 0 < i →
      (processDoc u dO iF h d i ws nm st).out.colWidths = st.out.colWidths) ∧
    (∀ (u dO iF : Bool) (h d : Nat) (ws : Doc) (nm : String) (st : EngineState),
      (processDoc u dO iF h d 0 ws nm st).out.colWidths =
        st.out.colWidths ++ ws.colWidths.filterMap
          (fun p => if p.2 ≠ 0 then some (p.1 + colOff iF, p.2) else none)) :=
  ⟨fun u dO iF h d i ws nm st hi => processDoc_later_colWidths u dO iF h d i ws nm st hi,
   fun u dO iF h d ws nm st => processDoc_first_colWidths u dO iF h d ws nm st⟩

theorem C9_column_widths_witness :
    (processDoc false true false 1 0 1 wsTiny "a.xlsx" initState).out.colWidths =
      initState.out.colWidths :=
  C9_column_widths.1 false true false 1 0 1 wsTiny "a.xlsx" initState (by decide)

theorem lastOfConcat {α : Type} (l : List α) (a : α) : (l ++ [a]).getLast? = some a := by
  simp [List.getLast?_concat]

theorem dropLastOfConcat {α : Type} (l : List α) (a : α) : (l ++ [a]).dropLast = l := by
  simp

theorem mem_progressSteps (l : List Msg) (s : Nat) :
    s ∈ progressSteps l ↔ ∃ tx, Msg.progress s tx ∈ l := by
  simp only [progressSteps, List.mem_filterMap]
  constructor
  · rintro ⟨m, hm, he⟩
    cases m with
    | progress s' tx =>
      simp [progressStep?] at he
      subst he
      exact ⟨tx, hm⟩
    | result a b => simp [progressStep?] at he
  · rintro ⟨tx, hm⟩
    exact ⟨Msg.progress s tx, hm, rfl⟩

theorem workerLoop_msgs_shape (u dO iF : Bool) (h d : Nat) (cAt : Option Nat) (total : Nat) :
    ∀ (fs : List InputFile) (i : Nat) (st : EngineState) (msgs : List Msg),
      ∃ D, loopMsgs (workerLoop u dO iF h d cAt total fs i st msgs) = msgs ++ D ∧
        (∀ m ∈ D, ∃ s tx, m = Msg.progress s tx ∧ i ≤ s ∧ s < i + fs.length) ∧
        List.Pairwise (· < ·) (progressSteps D) := by
  intro fs
  induction fs with
  | nil =>
    intro i st msgs
    exact ⟨[], by simp [workerLoop, loopMsgs], by simp, by simp [progressSteps]⟩
  | cons f rest ih =>
    intro i st msgs
    by_cases hc : cancelSet cAt i = true
    · exact ⟨[], by simp [workerLoop, hc, loopMsgs], by simp, by simp [progressSteps]⟩
    · have hc' : cancelSet cAt i = false := by revert hc; cases cancelSet cAt i <;> simp
      cases hp : f.parse with
      | error e =>
        refine ⟨[Msg.progress i (progressText i total f.name)], ?_, ?_, ?_⟩
        · simp [workerLoop, hc', hp, loopMsgs]
        · intro m hm
          simp at hm
          subst hm
          exact ⟨i, progressText i total f.name, rfl, le_refl i, by simp⟩
        · simp [progressSteps, progressStep?]
      | ok ws =>
        obtain ⟨D, hD, hAll, hPW⟩ := ih (i + 1) (processDoc u dO iF h d i ws f.name st)
          (msgs ++ [Msg.progress i (progressText i total f.name)])
        refine ⟨Msg.progress i (progressText i total f.name) :: D, ?_, ?_, ?_⟩
        · rw [workerLoop_step u dO iF h d cAt total f rest i st msgs ws hc' hp, hD]
          simp
        · intro m hm
          rcases List.mem_cons.mp hm with h1 | h2
          · exact ⟨i, progressText i total f.name, h1, le_refl i, by simp⟩
          · obtain ⟨s, tx, he, h3, h4⟩ := hAll m h2
            refine ⟨s, tx, he, by omega, ?_⟩
            simp only [List.length_cons]
            omega
        · have hps : progressSteps (Msg.progress i (progressText i total f.name) :: D) =
              i :: progressSteps D := by simp [progressSteps, progressStep?]
          rw [hps]
          refine List.Pairwise.cons ?_ hPW
          intro s hs
          obtain ⟨tx, hmem⟩ := (mem_progressSteps D s).mp hs
          obtain ⟨s', tx', he, h3, h4⟩ := hAll _ hmem
          injection he with hss htt
          omega

theorem workerLoop_done (u dO iF : Bool) (h d : Nat) (cAt : Option Nat) (total : Nat) :
    ∀ (fs : List InputFile) (i : Nat) (st : EngineState) (msgs : List Msg),
      (∀ f ∈ fs, parseOk f = true) →
      (∀ j, j < fs.length → cancelSet cAt (i + j) = false) →
      ∃ st2 msgs2,
        workerLoop u dO iF h d cAt total fs i st msgs = LoopOut.done st2 msgs2 := by
  intro fs
  induction fs with
  | nil => intro i st msgs _ _; exact ⟨st, msgs, rfl⟩
  | cons f rest ih =>
    intro i st msgs hok hcan
    have hc : cancelSet cAt i = false := by
      have := hcan 0 (by simp)
      simpa using this
    have hf : parseOk f = true := hok f (by simp)
    cases hp : f.parse with
    | error e => simp [parseOk, hp] at hf
    | ok ws =>
      have hcan' : ∀ j, j < rest.length → cancelSet cAt ((i + 1) + j) = false := by
        intro j hj
        have := hcan (j + 1) (by simp; omega)
        have he : i + (j + 1) = (i + 1) + j := by omega
        rwa [he] at this
      obtain ⟨st2, msgs2, H⟩ := ih (i + 1) (processDoc u dO iF h d i ws f.name st)
        (msgs ++ [Msg.progress i (progressText i total f.name)])
        (fun g hg => hok g (by simp [hg])) hcan'
      exact ⟨st2, msgs2, by rw [workerLoop_step u dO iF h d cAt total f rest i st msgs ws hc hp, H]⟩

theorem workerLoop_cancel (u dO iF : Bool) (h d : Nat) :
    ∀ (k : Nat) (fs : List InputFile) (i : Nat) (st : EngineState)
      (m1 m2 : List Msg) (t1 t2 : Nat),
      k < fs.length → (∀ f ∈ fs.take k, parseOk f = true) →
      ∃ st2 D1 D2,
        workerLoop u dO iF h d (some (i + k)) t1 fs i st m1 =
          LoopOut.cancelled st2 (m1 ++ D1) ∧
        workerLoop u dO iF h d none t2 (fs.take k) i st m2 =
          LoopOut.done st2 (m2 ++ D2) := by
  intro k
  induction k with
  | zero =>
    intro fs i st m1 m2 t1 t2 hk hok
    cases fs with
    | nil => simp at hk
    | cons f rest =>
      refine ⟨st, [], [], ?_, ?_⟩
      · have hcs : cancelSet (some i) i = true := by simp [cancelSet]
        simp [workerLoop, hcs]
      · simp [workerLoop]
  | succ k ih =>
    intro fs i st m1 m2 t1 t2 hk hok
    cases fs with
    | nil => simp at hk
    | cons f rest =>
      have hkr : k < rest.length := by simp at hk; omega
      have hf : parseOk f = true := hok f (by simp [List.take_succ_cons])
      cases hp : f.parse with
      | error e => simp [parseOk, hp] at hf
      | ok ws =>
        have hc1 : cancelSet (some ((i + 1) + k)) i = false := by
          simp [cancelSet]; omega
        have hc2 : cancelSet (none : Option Nat) i = false := rfl
        have hok' : ∀ g ∈ rest.take k, parseOk g = true := by
          intro g hg
          exact hok g (by simp [List.take_succ_cons, hg])
        obtain ⟨st2, D1, D2, H1, H2⟩ := ih rest (i + 1)
          (processDoc u dO iF h d i ws f.name st)
          (m1 ++ [Msg.progress i (progressText i t1 f.name)])
          (m2 ++ [Msg.progress i (progressText i t2 f.name)]) t1 t2 hkr hok'
        have hidx : i + (k + 1) = (i + 1) + k := by omega
        refine ⟨st2, Msg.progress i (progressText i t1 f.name) :: D1,
          Msg.progress i (progressText i t2 f.name) :: D2, ?_, ?_⟩
        · rw [hidx]
          rw [workerLoop_step u dO iF h d (some ((i + 1) + k)) t1 f rest i st m1 ws hc1 hp, H1]
          simp
        · rw [List.take_succ_cons]
          rw [workerLoop_step u dO iF h d none t2 f (rest.take k) i st m2 ws hc2 hp, H2]
          simp


theorem cancelSet_false_of_noCancel (cAt : Option Nat) (n : Nat)
    (hnc : noCancelBefore cAt n = true) : ∀ j, j < n → cancelSet cAt j = false := by
  intro j hj
  cases cAt with
  | none => rfl
  | some k =>
    simp [noCancelBefore] at hnc
    simp [cancelSet]
    omega

theorem progressSteps_append (l1 l2 : List Msg) :
    progressSteps (l1 ++ l2) = progressSteps l1 ++ progressSteps l2 := by
  simp [progressSteps]

theorem worker_msgs_shape (u : Bool) (files : List InputFile) (saveOk : Option String)
    (h d : Nat) (iF pres : Bool) (cAt : Option Nat) :
    ∃ P r, (combine_excel_files_worker u files saveOk h d iF pres cAt).msgs = P ++ [r] ∧
      (∀ m ∈ P, isResultMsg m = false) ∧
      List.Pairwise (· < ·) (progressSteps (P ++ [r])) ∧
      isResultMsg r = true := by
  obtain ⟨D, hD, hAll, hPW⟩ := workerLoop_msgs_shape u (!pres) iF h d cAt files.length
    files 0 initState []
  have hDnr : ∀ m ∈ D, isResultMsg m = false := by
    intro m hm
    obtain ⟨s, tx, he, _, _⟩ := hAll m hm
    subst he
    rfl
  have hDlt : ∀ s ∈ progressSteps D, s < files.length := by
    intro s hs
    obtain ⟨tx, hmem⟩ := (mem_progressSteps D s).mp hs
    obtain ⟨s', tx', he, h1, h2⟩ := hAll _ hmem
    injection he with hss htt
    omega
  cases hL : workerLoop u (!pres) iF h d cAt files.length files 0 initState [] with
  | done st m =>
    rw [hL] at hD
    simp [loopMsgs] at hD
    subst hD
    cases saveOk with
    | none =>
      refine ⟨m ++ [savingMsg files.length], successMsg files.length, ?_, ?_, ?_, rfl⟩
      · simp [combine_excel_files_worker, hL]
      · intro m hm
        rcases List.mem_append.mp hm with h1 | h2
        · exact hDnr m h1
        · simp at h2
          subst h2
          rfl
      · have hsteps : progressSteps ((m ++ [savingMsg files.length]) ++
            [successMsg files.length]) = progressSteps m ++ [files.length] := by
          simp [progressSteps_append, progressSteps, savingMsg, successMsg, progressStep?]
        rw [hsteps, List.pairwise_append]
        refine ⟨hPW, List.pairwise_singleton _ _, ?_⟩
        intro a ha b hb
        simp at hb
        subst hb
        exact hDlt a ha
    | some e =>
      refine ⟨m ++ [savingMsg files.length], errorMsg e, ?_, ?_, ?_, rfl⟩
      · simp [combine_excel_files_worker, hL]
      · intro m hm
        rcases List.mem_append.mp hm with h1 | h2
        · exact hDnr m h1
        · simp at h2
          subst h2
          rfl
      · have hsteps : progressSteps ((m ++ [savingMsg files.length]) ++ [errorMsg e]) =
            progressSteps m ++ [files.length] := by
          simp [progressSteps_append, progressSteps, savingMsg, errorMsg, progressStep?]
        rw [hsteps, List.pairwise_append]
        refine ⟨hPW, List.pairwise_singleton _ _, ?_⟩
        intro a ha b hb
        simp at hb
        subst hb
        exact hDlt a ha
  | cancelled st m =>
    rw [hL] at hD
    simp [loopMsgs] at hD
    subst hD
    refine ⟨m, cancelledMsg, ?_, hDnr, ?_, rfl⟩
    · simp [combine_excel_files_worker, hL]
    · have hsteps : progressSteps (m ++ [cancelledMsg]) = progressSteps m := by
        simp [progressSteps_append, progressSteps, cancelledMsg, progressStep?]
      rw [hsteps]
      exact hPW
  | exc st m e =>
    rw [hL] at hD
    simp [loopMsgs] at hD
    subst hD
    refine ⟨m, errorMsg e, ?_, hDnr, ?_, rfl⟩
    · simp [combine_excel_files_worker, hL]
    · have hsteps : progressSteps (m ++ [errorMsg e]) = progressSteps m := by
        simp [progressSteps_append, progressSteps, errorMsg, progressStep?]
      rw [hsteps]
      exact hPW

/-- Claim C4: the cancellation signal is observed only at document boundaries;
when it is set before document `k` is processed, the run puts the cancelled
result last, never invokes the save, and the in-memory output is exactly that
of a run over the first `k` documents alone (each begun document fully
copied). -/
theorem C4_cancellation_boundary (u : Bool) (files : List InputFile)
    (saveOk : Option String) (h d : Nat) (iF pres : Bool) (k : Nat)
    (hk : k < files.length) (hok : ∀ f ∈ files.take k, parseOk f = true) :
    (combine_excel_files_worker u files saveOk h d iF pres (some k)).out =
      (combine_excel_files_worker u (files.take k) saveOk h d iF pres none).out ∧
    (combine_excel_files_worker u files saveOk h d iF pres (some k)).saved = false ∧
    (combine_excel_files_worker u files saveOk h d iF pres (some k)).saveInvoked = false ∧
    (combine_excel_files_worker u files saveOk h d iF pres (some k)).msgs.getLast? =
      some cancelledMsg := by
  obtain ⟨st2, D1, D2, H1, H2⟩ := workerLoop_cancel u (!pres) iF h d k files 0 initState
    [] [] files.length (files.take k).length hk hok
  have h0k : (0 : Nat) + k = k := by omega
  rw [h0k] at H1
  have hw1 : combine_excel_files_worker u files saveOk h d iF pres (some k) =
      { msgs := ([] ++ D1) ++ [cancelledMsg], out := st2.out, saved := false,
        saveInvoked := false } := by
    simp [combine_excel_files_worker, H1]
  have hlen : (files.take k).length = k := by
    simp [List.length_take]
    omega
  rw [hlen] at H2
  have hmin : k ⊓ files.length = k := by omega
  have hw2 : (combine_excel_files_worker u (files.take k) saveOk h d iF pres none).out =
      st2.out := by
    cases saveOk <;> simp [combine_excel_files_worker, hmin, H2]
  refine ⟨?_, ?_, ?_, ?_⟩
  · rw [hw1, hw2]
  · rw [hw1]
  · rw [hw1]
  · rw [hw1]
    exact lastOfConcat _ _

theorem C4_cancellation_boundary_witness :
    (combine_excel_files_worker true [fRed, fBlue] none 1 0 false false (some 1)).out =
      (combine_excel_files_worker true (List.take 1 [fRed, fBlue]) none 1 0 false false
        none).out ∧
    (combine_excel_files_worker true [fRed, fBlue] none 1 0 false false (some 1)).saved =
      false ∧
    (combine_excel_files_worker true [fRed, fBlue] none 1 0 false false
      (some 1)).saveInvoked = false ∧
    (combine_excel_files_worker true [fRed, fBlue] none 1 0 false false
      (some 1)).msgs.getLast? = some cancelledMsg :=
  C4_cancellation_boundary true [fRed, fBlue] none 1 0 false false 1 (by decide) (by decide)

/-- Claim C5: every run ends with exactly one terminal result message, which is
the last message emitted (the engine never terminates without a terminal
report); an exception raised while loading or processing a document, or while
saving, is converted into exactly one error result carrying the message
`An error occurred: e`, with nothing saved. -/
theorem C5_exceptions_reported (u : Bool) (files : List InputFile)
    (saveOk : Option String) (h d : Nat) (iF pres : Bool) (cAt : Option Nat) :
    ((combine_excel_files_worker u files saveOk h d iF pres cAt).msgs.filter
      isResultMsg).length = 1 ∧
    ((combine_excel_files_worker u files saveOk h d iF pres cAt).msgs.getLast?).map
      isResultMsg = some true ∧
    (∀ st m e,
      workerLoop u (!pres) iF h d cAt files.length files 0 initState [] =
        LoopOut.exc st m e →
      (combine_excel_files_worker u files saveOk h d iF pres cAt).msgs =
        m ++ [errorMsg e] ∧
      (combine_excel_files_worker u files saveOk h d iF pres cAt).msgs.getLast? =
        some (errorMsg e) ∧
      (combine_excel_files_worker u files saveOk h d iF pres cAt).saved = false ∧
      (combine_excel_files_worker u files saveOk h d iF pres cAt).saveInvoked = false) ∧
    (∀ st m e,
      workerLoop u (!pres) iF h d cAt files.length files 0 initState [] =
        LoopOut.done st m → saveOk = some e →
      (combine_excel_files_worker u files saveOk h d iF pres cAt).msgs.getLast? =
        some (errorMsg e) ∧
      (combine_excel_files_worker u files saveOk h d iF pres cAt).saved = false) := by
  obtain ⟨P, r, hPr, hPnr, hPW, hr⟩ :=
    worker_msgs_shape u files saveOk h d iF pres cAt
  refine ⟨?_, ?_, ?_, ?_⟩
  · rw [hPr, List.filter_append]
    have hP : P.filter isResultMsg = [] := by
      rw [List.filter_eq_nil_iff]
      intro a ha
      simp [hPnr a ha]
    rw [hP]
    simp [hr]
  · rw [hPr, lastOfConcat]
    simp [hr]
  · intro st m e hL
    have hw : combine_excel_files_worker u files saveOk h d iF pres cAt =
        { msgs := m ++ [errorMsg e], out := st.out, saved := false,
          saveInvoked := false } := by
      simp [combine_excel_files_worker, hL]
    rw [hw]
    exact ⟨rfl, lastOfConcat _ _, rfl, rfl⟩
  · intro st m e hL hs
    subst hs
    have hw : combine_excel_files_worker u files (some e) h d iF pres cAt =
        { msgs := (m ++ [savingMsg files.length]) ++ [errorMsg e], out := st.out,
          saved := false, saveInvoked := true } := by
      simp [combine_excel_files_worker, hL]
    rw [hw]
    exact ⟨lastOfConcat _ _, rfl⟩

theorem C5_exceptions_reported_witness :
    (combine_excel_files_worker false [fBad] none 1 0 false false none).msgs =
      [Msg.progress 0 (progressText 0 1 "bad.xlsx")] ++ [errorMsg "corrupt archive"] ∧
    (combine_excel_files_worker false [fBad] none 1 0 false false none).msgs.getLast? =
      some (errorMsg "corrupt archive") ∧
    (combine_excel_files_worker false [fBad] none 1 0 false false none).saved = false ∧
    (combine_excel_files_worker false [fBad] none 1 0 false false none).saveInvoked =
      false :=
  (C5_exceptions_reported false [fBad] none 1 0 false false none).2.2.1 initState
    [Msg.progress 0 (progressText 0 1 "bad.xlsx")] "corrupt archive" (by decide)

/-- Claim C6: progress events carry strictly increasing step values; on the
success path the final progress event is at step `files.length` with the saving
status right before the terminal report; every run emits exactly one terminal
result message and it is always the last message. -/
theorem C6_message_ordering (u : Bool) (files : List InputFile)
    (saveOk : Option String) (h d : Nat) (iF pres : Bool) (cAt : Option Nat) :
    List.Pairwise (· < ·)
      (progressSteps (combine_excel_files_worker u files saveOk h d iF pres cAt).msgs) ∧
    ((combine_excel_files_worker u files saveOk h d iF pres cAt).msgs.filter
      isResultMsg).length = 1 ∧
    ((combine_excel_files_worker u files saveOk h d iF pres cAt).msgs.getLast?).map
      isResultMsg = some true ∧
    ((∀ f ∈ files, parseOk f = true) → noCancelBefore cAt files.length = true →
      saveOk = none →
      (combine_excel_files_worker u files saveOk h d iF pres cAt).msgs.getLast? =
        some (successMsg files.length) ∧
      (combine_excel_files_worker u files saveOk h d iF pres
        cAt).msgs.dropLast.getLast? = some (savingMsg files.length)) := by
  obtain ⟨P, r, hPr, hPnr, hPW, hr⟩ :=
    worker_msgs_shape u files saveOk h d iF pres cAt
  refine ⟨?_, ?_, ?_, ?_⟩
  · rw [hPr]
    exact hPW
  · rw [hPr, List.filter_append]
    have hP : P.filter isResultMsg = [] := by
      rw [List.filter_eq_nil_iff]
      intro a ha
      simp [hPnr a ha]
    rw [hP]
    simp [hr]
  · rw [hPr, lastOfConcat]
    simp [hr]
  · intro hok hnc hs
    subst hs
    obtain ⟨st2, m2, hL⟩ := workerLoop_done u (!pres) iF h d cAt files.length files 0
      initState [] hok (by
        intro j hj
        have := cancelSet_false_of_noCancel cAt files.length hnc j hj
        simpa using this)
    have hw : combine_excel_files_worker u files none h d iF pres cAt =
        { msgs := (m2 ++ [savingMsg files.length]) ++ [successMsg files.length],
          out := st2.out, saved := true, saveInvoked := true } := by
      simp [combine_excel_files_worker, hL]
    rw [hw]
    constructor
    · exact lastOfConcat _ _
    · rw [show ((m2 ++ [savingMsg files.length]) ++ [successMsg files.length]).dropLast =
          m2 ++ [savingMsg files.length] from dropLastOfConcat _ _]
      exact lastOfConcat _ _

theorem C6_message_ordering_witness :
    (combine_excel_files_worker false [fTiny] none 3 1 false false none).msgs.getLast? =
      some (successMsg 1) ∧
    (combine_excel_files_worker false [fTiny] none 3 1 false false
      none).msgs.dropLast.getLast? = some (savingMsg 1) :=
  (C6_message_ordering false [fTiny] none 3 1 false false none).2.2.2 (by decide)
    (by decide) rfl




theorem copyCellStrat_value (u : Bool) (c : StyleCache) (s : LCell) (t : TCell) :
    (copyCellStrat u c s t).1.value = s.value := by
  cases u
  · simp only [copyCellStrat, Bool.false_eq_true, if_false]
    unfold copy_cell_v1
    cases hs : s.hasStyle <;> cases hh : s.hyperlink.isSome <;>
      cases hcm : s.comment.isSome <;> simp [hs, hh, hcm]
  · simp only [copyCellStrat, if_true]
    unfold copy_cell_v2
    cases hs : s.hasStyle <;> cases ha : assoc c s.styleKey <;>
      cases hh : s.hyperlink.isSome <;> cases hcm : s.comment.isSome <;>
      simp [hs, ha, hh, hcm]

theorem registerMerges_cells (o : WOutput) (new : List MergedRange) :
    (registerMerges o new).cells = o.cells := rfl

theorem copyColWidths_cells (off : Nat) (src : List (Nat × Nat)) (o : WOutput) :
    (copyColWidths off src o).cells = o.cells := rfl

theorem cellsNoFormula_of_cells_eq (o1 o2 : WOutput) (he : o2.cells = o1.cells)
    (h1 : cellsNoFormula o1) : cellsNoFormula o2 := by
  intro pr hpr
  exact h1 pr (he ▸ hpr)

theorem cellsNoFormula_setCell (o : WOutput) (p : Nat × Nat) (t : TCell)
    (ho : cellsNoFormula o) (ht : isFormulaVal t.value = false) :
    cellsNoFormula (setCell o p t) := by
  intro pr hpr
  rcases List.mem_cons.mp hpr with h1 | h2
  · subst h1
    exact ht
  · exact ho pr h2

theorem copyRowCells_nf (u : Bool) (ws : Doc) (sr tr off : Nat) (hws : docCachedOk ws) :
    ∀ (cols : List Nat) (out : WOutput) (cache : StyleCache), cellsNoFormula out →
      cellsNoFormula (copyRowCells u true ws sr tr off cols out cache).1 := by
  intro cols
  induction cols with
  | nil => intro out cache ho; exact ho
  | cons c rest ih =>
    intro out cache ho
    simp only [copyRowCells]
    apply ih
    apply cellsNoFormula_setCell _ _ _ ho
    rw [copyCellStrat_value]
    simpa [loadCell, loadValue] using hws sr c

theorem copy_row_nf (u : Bool) (ws : Doc) (iF : Bool) (nm : String) (sr tr : Nat)
    (out : WOutput) (cache : StyleCache) (hws : docCachedOk ws)
    (ho : cellsNoFormula out) :
    cellsNoFormula (copy_row u true ws iF nm sr tr out cache).1 := by
  unfold copy_row
  apply copyRowCells_nf u ws sr tr (colOff iF) hws
  have ho1 : cellsNoFormula (match assoc ws.rowHeights sr with
      | some hgt => { out with rowHeights := out.rowHeights ++ [(tr, hgt)] }
      | none => out) := by
    cases assoc ws.rowHeights sr with
    | some hgt => exact cellsNoFormula_of_cells_eq out _ rfl ho
    | none => exact ho
  cases hif : iF
  · simpa using ho1
  · simp only [if_true]
    exact cellsNoFormula_setCell _ _ _ ho1 rfl

theorem copyRows_nf (u iF : Bool) (ws : Doc) (nm : String) (hws : docCachedOk ws) :
    ∀ (rows : List Nat) (st : EngineState), cellsNoFormula st.out →
      cellsNoFormula (copyRows u true iF ws nm rows st).out := by
  intro rows
  induction rows with
  | nil => intro st ho; exact ho
  | cons r rest ih =>
    intro st ho
    simp only [copyRows]
    apply ih
    exact copy_row_nf u ws iF nm r st.tgt st.out st.cache hws ho

theorem processDoc_nf (u iF : Bool) (h d i : Nat) (ws : Doc) (nm : String)
    (st : EngineState) (hws : docCachedOk ws) (ho : cellsNoFormula st.out) :
    cellsNoFormula (processDoc u true iF h d i ws nm st).out := by
  unfold processDoc
  split
  · apply cellsNoFormula_of_cells_eq _ _ (copyColWidths_cells _ _ _)
    apply cellsNoFormula_of_cells_eq _ _ (registerMerges_cells _ _)
    apply copyRows_nf u iF ws nm hws
    apply cellsNoFormula_of_cells_eq _ _ (registerMerges_cells _ _)
    exact copyRows_nf u iF ws nm hws _ st ho
  · dsimp only
    split
    · exact ho
    · apply cellsNoFormula_of_cells_eq _ _ (registerMerges_cells _ _)
      exact copyRows_nf u iF ws nm hws _ st ho

theorem workerLoop_nf (u iF : Bool) (h d : Nat) (cAt : Option Nat) (total : Nat) :
    ∀ (fs : List InputFile) (i : Nat) (st : EngineState) (msgs : List Msg),
      (∀ f ∈ fs, ∀ ws, f.parse = Except.ok ws → docCachedOk ws) →
      cellsNoFormula st.out →
      cellsNoFormula (loopState (workerLoop u true iF h d cAt total fs i st msgs)).out := by
  intro fs
  induction fs with
  | nil => intro i st msgs _ ho; exact ho
  | cons f rest ih =>
    intro i st msgs hall ho
    by_cases hc : cancelSet cAt i = true
    · simpa [workerLoop, hc, loopState] using ho
    · have hc' : cancelSet cAt i = false := by revert hc; cases cancelSet cAt i <;> simp
      cases hp : f.parse with
      | error e => simpa [workerLoop, hc', hp, loopState] using ho
      | ok ws =>
        rw [workerLoop_step u true iF h d cAt total f rest i st msgs ws hc' hp]
        apply ih (i + 1) _ _ (fun g hg => hall g (by simp [hg]))
        exact processDoc_nf u iF h d i ws f.name st (hall f (by simp) ws hp) ho

theorem worker_out_eq (u : Bool) (files : List InputFile) (saveOk : Option String)
    (h d : Nat) (iF pres : Bool) (cAt : Option Nat) :
    (combine_excel_files_worker u files saveOk h d iF pres cAt).out =
      (loopState (workerLoop u (!pres) iF h d cAt files.length files 0 initState [])).out := by
  cases hL : workerLoop u (!pres) iF h d cAt files.length files 0 initState [] <;>
    cases saveOk <;> simp [combine_excel_files_worker, hL, loopState]

/-- Claim C7: with `preserveFormulas = false` the workbook is loaded
`data_only` and no cell ever written to the output holds formula syntax (every
formula cell is copied as its cached computed value, the spec's data-model
invariant that cached values are not formulas being the hypothesis); with
`preserveFormulas = true` every copied cell whose source holds a formula
receives the formula text verbatim. -/
theorem C7_formula_mode :
    (∀ (u : Bool) (files : List InputFile) (saveOk : Option String) (h d : Nat)
      (iF : Bool) (cAt : Option Nat),
      (∀ f ∈ files, ∀ ws, f.parse = Except.ok ws → docCachedOk ws) →
      cellsNoFormula (combine_excel_files_worker u files saveOk h d iF false cAt).out) ∧
    (∀ (u : Bool) (cache : StyleCache) (fc : FileCell) (tgt : TCell) (t : String),
      fc.formula = some t →
      (copyCellStrat u cache (loadCell false fc) tgt).1.value = XVal.vformula t) := by
  constructor
  · intro u files saveOk h d iF cAt hall
    rw [worker_out_eq]
    exact workerLoop_nf u iF h d cAt files.length files 0 initState [] hall
      (by intro pr hpr; exact absurd hpr (List.not_mem_nil pr))
  · intro u cache fc tgt t hf
    rw [copyCellStrat_value]
    simp [loadCell, loadValue, hf]

theorem C7_formula_mode_witness :
    cellsNoFormula (combine_excel_files_worker false [fTiny] none 1 0 false false
      none).out ∧
    (copyCellStrat false [] (loadCell false fcFormula) freshTCell).1.value =
      XVal.vformula "=A1+B1" :=
  ⟨C7_formula_mode.1 false [fTiny] none 1 0 false none (by
      intro f hf ws hws r c
      simp at hf
      subst hf
      simp [fTiny] at hws
      subst hws
      rfl),
   C7_formula_mode.2 false [] fcFormula freshTCell "=A1+B1" rfl⟩

/-- Claim C1 fails on the code as written: `copy_cell_v2` keys its cache by
the source cell's `_style` (a per-workbook array of style indices) and the
cache persists across the documents of one run, so two cells from different
source documents with equal keys but different resolved attributes collide.
Evaluated at such an input, the optimized run gives the second document's cell
the first document's style (`styleRed`) while the standard run copies its
actual style (`styleBlue`): the two strategies do not produce identical
output. -/
theorem C1_code_bug_eval :
    (getCell (combine_excel_files_worker true [fRed, fBlue] none 1 0 false false none).out
      (2, 1)).style = styleRed ∧
    (getCell (combine_excel_files_worker false [fRed, fBlue] none 1 0 false false none).out
      (2, 1)).style = styleBlue ∧
    styleRed ≠ styleBlue := by
  exact ⟨by decide, by decide, by decide⟩

/-- Claim C8, counterexample to the claim as stated: the first document has one
(blank) row, fewer than the three required header rows, yet the run is reported
as success and the output is saved — the engine copies the missing header rows
as blank cells instead of failing. -/
theorem C8_counterexample :
    (combine_excel_files_worker false [fTiny] none 3 1 false false none).saved = true ∧
    (combine_excel_files_worker false [fTiny] none 3 1 false false none).msgs.getLast? =
      some (successMsg 1) := by
  exact ⟨rfl, rfl⟩

/-- Claim C8 (amended): if a source document is unreadable or corrupt, the run
is reported as Failed and aborts, and the engine never reaches the save step,
so it writes no output file; a first document with fewer rows than the header
window is not an error (the missing rows are copied as blank cells). -/
theorem C8_unreadable_fails (u : Bool) (f : InputFile) (rest : List InputFile)
    (saveOk : Option String) (h d : Nat) (iF pres : Bool) (cAt : Option Nat) (e : String)
    (hp : f.parse = Except.error e) (hc : cancelSet cAt 0 = false) :
    (combine_excel_files_worker u (f :: rest) saveOk h d iF pres cAt).saved = false ∧
    (combine_excel_files_worker u (f :: rest) saveOk h d iF pres cAt).saveInvoked = false ∧
    (combine_excel_files_worker u (f :: rest) saveOk h d iF pres cAt).msgs =
      [Msg.progress 0 (progressText 0 (f :: rest).length f.name), errorMsg e] := by
  have hL : workerLoop u (!pres) iF h d cAt (f :: rest).length (f :: rest) 0 initState [] =
      LoopOut.exc initState [Msg.progress 0 (progressText 0 (f :: rest).length f.name)]
        e := by
    simp [workerLoop, hc, hp]
  simp only [List.length_cons] at hL
  refine ⟨?_, ?_, ?_⟩ <;> simp [combine_excel_files_worker, hL]

theorem C8_unreadable_fails_witness :
    (combine_excel_files_worker false [fBad] none 2 0 false false none).saved = false ∧
    (combine_excel_files_worker false [fBad] none 2 0 false false none).saveInvoked =
      false ∧
    (combine_excel_files_worker false [fBad] none 2 0 false false none).msgs =
      [Msg.progress 0 (progressText 0 1 "bad.xlsx"), errorMsg "corrupt archive"] :=
  C8_unreadable_fails false fBad [] none 2 0 false false none "corrupt archive" rfl rfl

/-- Claim C10: the save step is reached exactly when the document loop ran to
completion (no cancellation observed, no exception), and an output file is
written only when the save itself succeeds; on a Cancelled outcome or a Failed
outcome arising before the save, the save operation is never invoked. -/
theorem C10_save_gating (u : Bool) (files : List InputFile) (saveOk : Option String)
    (h d : Nat) (iF pres : Bool) (cAt : Option Nat) :
    ((combine_excel_files_worker u files saveOk h d iF pres cAt).saveInvoked = true ↔
      ∃ st m, workerLoop u (!pres) iF h d cAt files.length files 0 initState [] =
        LoopOut.done st m) ∧
    ((combine_excel_files_worker u files saveOk h d iF pres cAt).saved = true →
      (combine_excel_files_worker u files saveOk h d iF pres cAt).saveInvoked = true ∧
      saveOk = none) := by
  cases hL : workerLoop u (!pres) iF h d cAt files.length files 0 initState [] with
  | done st m =>
    cases saveOk with
    | none =>
      have hw : combine_excel_files_worker u files none h d iF pres cAt =
          { msgs := (m ++ [savingMsg files.length]) ++ [successMsg files.length],
            out := st.out, saved := true, saveInvoked := true } := by
        simp [combine_excel_files_worker, hL]
      rw [hw]
      exact ⟨⟨fun _ => ⟨st, m, rfl⟩, fun _ => rfl⟩, fun _ => ⟨rfl, rfl⟩⟩
    | some e =>
      have hw : combine_excel_files_worker u files (some e) h d iF pres cAt =
          { msgs := (m ++ [savingMsg files.length]) ++ [errorMsg e],
            out := st.out, saved := false, saveInvoked := true } := by
        simp [combine_excel_files_worker, hL]
      rw [hw]
      refine ⟨⟨fun _ => ⟨st, m, rfl⟩, fun _ => rfl⟩, fun habs => absurd habs (by simp)⟩
  | cancelled st m =>
    have hw : combine_excel_files_worker u files saveOk h d iF pres cAt =
        { msgs := m ++ [cancelledMsg], out := st.out, saved := false,
          saveInvoked := false } := by
      simp [combine_excel_files_worker, hL]
    rw [hw]
    refine ⟨⟨fun habs => absurd habs (by simp), ?_⟩, fun habs => absurd habs (by simp)⟩
    rintro ⟨st2, m2, hEq⟩
    cases hEq
  | exc st m e =>
    have hw : combine_excel_files_worker u files saveOk h d iF pres cAt =
        { msgs := m ++ [errorMsg e], out := st.out, saved := false,
          saveInvoked := false } := by
      simp [combine_excel_files_worker, hL]
    rw [hw]
    refine ⟨⟨fun habs => absurd habs (by simp), ?_⟩, fun habs => absurd habs (by simp)⟩
    rintro ⟨st2, m2, hEq⟩
    cases hEq

theorem C10_save_gating_witness :
    (combine_excel_files_worker false [fTiny] none 3 0 false false none).saveInvoked =
      true ∧ (none : Option String) = none :=
  (C10_save_gating false [fTiny] none 3 0 false false none).2 (by decide)
